import Mathlib

/-!
Verification of the local-service orchestration layer of a desktop
content-creation toolkit.  The definitions below are a shallow embedding of
the TypeScript sources:

* `src/electron/whisper.ts`    — model download engine and the transcription
  facade (`downloadModel`, `downloadFromUrl`, `needsConversion`, `transcribe`,
  `cancelTranscription`);
* `src/electron/tts.ts` and `src/electron/video-analyzer.ts` — the
  `startServer` guard of the two persistent-server facades;
* the newline-delimited JSON streaming client (`generateStream`, `pullModel`).

Machine strings are `String`/`List Char`; byte counts are `Nat`; external
effects (HTTP responses, subprocess events, the filesystem) are explicit
inputs and outputs of the embedded functions.
-/

namespace Companion

/-! ## JavaScript string helpers -/

/-- Whitespace characters recognised by the embedding of `String.trim` and
of the `\s` regex class (space, tab, newline, carriage return). -/
def isWsChar (c : Char) : Bool :=
  c == ' ' || c == '\t' || c == '\n' || c == '\r'

/-- A line is blank when `line.trim()` is empty, i.e. every character is
whitespace. -/
def jsBlank (l : List Char) : Bool :=
  l.all isWsChar

/-- `String.prototype.trim` on a character list. -/
def jsTrimChars (l : List Char) : List Char :=
  ((l.dropWhile isWsChar).reverse.dropWhile isWsChar).reverse

/-- `String.prototype.trim`. -/
def jsTrim (s : String) : String :=
  String.mk (jsTrimChars s.data)

/-- `String.prototype.toLowerCase` (character-wise lowercase mapping). -/
def strToLower (s : String) : String :=
  String.mk (s.data.map Char.toLower)

/-- JavaScript `a || b` for an optional string `a`: the default wins when
`a` is absent or empty (falsy). -/
def jsOr (a : Option String) (b : String) : String :=
  match a with
  | none => b
  | some s => if s = "" then b else s

/-- Numeric value of a digit list (used for `parseInt` on matched digits). -/
def digitsVal (l : List Char) : Nat :=
  l.foldl (fun a c => a * 10 + (c.toNat - 48)) 0

/-- Embedding of `parseInt(s, 10)` for the uses in the download engine: the
value of the leading digit run, and `0` when there is none (a `NaN` result
behaves like `0` under the only test applied to it, `totalSize > 0`). -/
def parseIntPrefix (s : String) : Nat :=
  digitsVal (s.data.takeWhile Char.isDigit)

/-! ## `path.extname` and the conversion predicate (whisper.ts) -/

/-- Characters of the basename: everything after the last `/`. -/
def afterLastSlash (l : List Char) : List Char :=
  l.foldl (fun acc c => if c = '/' then [] else acc ++ [c]) []

/-- The suffix of a character list starting at its last `.`, if any. -/
def extTail : List Char → Option (List Char)
  | [] => none
  | c :: cs =>
    match extTail cs with
    | some e => some e
    | none => if c = '.' then some (c :: cs) else none

/-- Embedding of Node's `path.extname` (POSIX): the extension of the
basename from its last dot, empty when there is no dot or when the dot is
the leading character (dotfiles), empty on the path `..`. -/
def extname (p : String) : String :=
  let b := afterLastSlash p.data
  if b = ['.', '.'] then ""
  else
    match extTail b with
    | none => ""
    | some e => if e.length = b.length then "" else String.mk e

/-- `SUPPORTED_FORMATS` from whisper.ts: audio containers whisper-cli reads
directly. -/
def SUPPORTED_FORMATS : List String :=
  [".flac", ".mp3", ".ogg", ".wav"]

/-- `WhisperService.needsConversion`: the lowercased extension is outside
the supported set. -/
def needsConversion (filePath : String) : Bool :=
  !(SUPPORTED_FORMATS.contains (strToLower (extname filePath)))

/-! ## Recognition progress scanning (whisper.ts stdout handler) -/

/-- Match the remainder of the regex `progress\s*=\s*(\d+)%` immediately
after the literal `progress`. -/
def matchProgressTail (s : List Char) : Option Nat :=
  match s.dropWhile isWsChar with
  | '=' :: s2 =>
    let s3 := s2.dropWhile isWsChar
    let ds := s3.takeWhile Char.isDigit
    if ds.isEmpty then none
    else
      match s3.drop ds.length with
      | '%' :: _ => some (digitsVal ds)
      | _ => none
  | _ => none

/-- First match of `/progress\s*=\s*(\d+)%/` in a stdout chunk, scanning
left to right as the JS regex engine does. -/
def findProgress : List Char → Option Nat
  | [] => none
  | c :: cs =>
    if (c :: cs).take 8 = "progress".data then
      match matchProgressTail ((c :: cs).drop 8) with
      | some n => some n
      | none => findProgress cs
    else findProgress cs

/-- The percent values forwarded to `options.onProgress` for a sequence of
stdout data chunks of the recognition process: for each chunk, the first
regex match (if any) is parsed and forwarded, with no further filtering. -/
def transcriptionProgressEvents (chunks : List String) : List Nat :=
  chunks.filterMap (fun s => findProgress s.data)

/-! ## Download progress arithmetic (whisper.ts) -/

/-- Running byte totals of the received chunks, starting from `acc`. -/
def runningTotals (acc : Nat) : List Nat → List Nat
  | [] => []
  | n :: ns => (acc + n) :: runningTotals (acc + n) ns

/-- `Math.round((downloaded / total) * 100)` in exact arithmetic:
`⌊100 d / t + 1 / 2⌋ = (200 d + t) / (2 t)` with natural division. -/
def roundPct (d t : Nat) : Nat :=
  (200 * d + t) / (2 * t)

/-- Progress percents delivered while streaming a download body: the
`content-length` header is parsed with `parseInt(h || '0')`; when the total
is positive every chunk reports the rounded percent of the accumulated byte
count, otherwise no progress is ever reported. -/
def downloadProgressEvents (contentLength : Option String) (chunks : List Nat) : List Nat :=
  if parseIntPrefix (contentLength.getD "0") > 0 then
    (runningTotals 0 chunks).map
      (fun d => roundPct d (parseIntPrefix (contentLength.getD "0")))
  else []

/-! ## The model download engine (whisper.ts `downloadModel`) -/

/-- `MODEL_DOWNLOAD_URLS`: the static download catalog. -/
def MODEL_DOWNLOAD_URLS : List (String × String) :=
  [("tiny", "https://huggingface.co/ggerganov/whisper.cpp/resolve/main/ggml-tiny.bin"),
   ("tiny.en", "https://huggingface.co/ggerganov/whisper.cpp/resolve/main/ggml-tiny.en.bin"),
   ("base", "https://huggingface.co/ggerganov/whisper.cpp/resolve/main/ggml-base.bin"),
   ("base.en", "https://huggingface.co/ggerganov/whisper.cpp/resolve/main/ggml-base.en.bin"),
   ("small", "https://huggingface.co/ggerganov/whisper.cpp/resolve/main/ggml-small.bin"),
   ("small.en", "https://huggingface.co/ggerganov/whisper.cpp/resolve/main/ggml-small.en.bin"),
   ("medium", "https://huggingface.co/ggerganov/whisper.cpp/resolve/main/ggml-medium.bin"),
   ("medium.en", "https://huggingface.co/ggerganov/whisper.cpp/resolve/main/ggml-medium.en.bin"),
   ("large-v3", "https://huggingface.co/ggerganov/whisper.cpp/resolve/main/ggml-large-v3.bin")]

/-- Catalog lookup, `MODEL_DOWNLOAD_URLS[modelName]`. -/
def modelDownloadUrl (name : String) : Option String :=
  (MODEL_DOWNLOAD_URLS.find? (fun e => e.1 == name)).map (fun e => e.2)

/-- Outcome of one `https.get`: a response (status, `location` and
`content-length` headers, body chunks given by their byte sizes) or a
request-level network error. -/
inductive NetResult where
  | resp (status : Nat) (location : Option String) (contentLength : Option String)
      (chunks : List Nat)
  | netError (msg : String)
deriving DecidableEq

/-- Failures of the download engine. -/
inductive DlError where
  | unknownModel (name : String)
  | http (status : Nat)
  | net (msg : String)
deriving DecidableEq

/-- Observable effects of one `downloadModel` call: the settled outcome, how
many HTTP requests were issued, whether the temp file was ever created, and
whether the `.tmp` file and the final model file exist afterwards, plus the
progress percents delivered. -/
structure DlRun where
  outcome : Except DlError Bool
  requests : Nat
  tmpCreated : Bool
  tmpExists : Bool
  finalExists : Bool
  progress : List Nat

/-- Embedding of `WhisperService.downloadModel` together with its redirect
helper `downloadFromUrl`.  `first` is the network outcome of the initial
GET and `second` that of the GET against the `Location` header (consulted
only when the first response is a 301/302 carrying a location).  The
filesystem starts without the temp or final file. -/
def downloadModel (modelName : String) (first second : NetResult) : DlRun :=
  match modelDownloadUrl modelName with
  | none =>
    { outcome := .error (.unknownModel modelName), requests := 0,
      tmpCreated := false, tmpExists := false, finalExists := false, progress := [] }
  | some _ =>
    match first with
    | .netError m =>
      { outcome := .error (.net m), requests := 1,
        tmpCreated := true, tmpExists := false, finalExists := false, progress := [] }
    | .resp st loc cl chunks =>
      if (st = 301 ∨ st = 302) ∧ loc.isSome then
        match second with
        | .netError m =>
          { outcome := .error (.net m), requests := 2,
            tmpCreated := true, tmpExists := true, finalExists := false, progress := [] }
        | .resp st2 _ cl2 chunks2 =>
          if st2 ≠ 200 then
            { outcome := .error (.http st2), requests := 2,
              tmpCreated := true, tmpExists := true, finalExists := false, progress := [] }
          else
            { outcome := .ok true, requests := 2,
              tmpCreated := true, tmpExists := false, finalExists := true,
              progress := downloadProgressEvents cl2 chunks2 }
      else if st ≠ 200 then
        { outcome := .error (.http st), requests := 1,
          tmpCreated := true, tmpExists := false, finalExists := false, progress := [] }
      else
        { outcome := .ok true, requests := 1,
          tmpCreated := true, tmpExists := false, finalExists := true,
          progress := downloadProgressEvents cl chunks }

/-! ## Newline-delimited JSON stream buffering

The streaming endpoints accumulate a string buffer, split it on `\n`,
keep the last (possibly incomplete) segment as the new buffer and process
each complete line: `const lines = buffer.split('\n'); buffer = lines.pop()`.
-/

/-- Split a character list at newlines: the complete (newline-terminated)
lines, and the trailing segment that has not been terminated yet. -/
def splitNl : List Char → List (List Char) × List Char
  | [] => ([], [])
  | c :: cs =>
    let p := splitNl cs
    if c = '\n' then ([] :: p.1, p.2)
    else
      match p.1 with
      | [] => ([], c :: p.2)
      | l :: ls => ((c :: l) :: ls, p.2)

/-- Process the complete lines produced by one data event: the step returns
the new state and whether the handler returned early (the loop and the rest
of this event's lines are abandoned on a terminal line). -/
def linesRun (step : σ → List Char → σ × Bool) (st : σ) : List (List Char) → σ
  | [] => st
  | l :: ls =>
    let r := step st l
    if r.2 then r.1 else linesRun step r.1 ls

/-- One `data` event: append the chunk to the buffer, split off the complete
lines, process them, keep the remainder as the new buffer. -/
def chunkStep (step : σ → List Char → σ × Bool) (acc : σ × List Char)
    (c : List Char) : σ × List Char :=
  let p := splitNl (acc.2 ++ c)
  (linesRun step acc.1 p.1, p.2)

/-- Run a whole response stream: fold the data events from an empty buffer. -/
def runChunks (step : σ → List Char → σ × Bool) (init : σ)
    (chunks : List (List Char)) : σ × List Char :=
  chunks.foldl (chunkStep step) (init, [])

/-! ## The LLM streaming client (`generateStream`) -/

/-- Result of `JSON.parse` on one line of an `/api/generate` stream, reduced
to the fields the client reads: `response`, `done` and `error` (`error`
counts as present whenever the key exists with a string value). -/
inductive GenParse where
  | malformed
  | obj (response : Option String) (done : Bool) (error : Option String)
deriving DecidableEq

/-- Settlement state of the promise returned by a streaming call. -/
inductive Settled (α : Type) where
  | pending
  | resolved (value : α)
  | rejected (msg : String)
deriving DecidableEq

/-- State of one `generateStream` call: the accumulated `fullResponse`, the
chunks handed to `onChunk` in order, and the promise settlement (only the
first resolve/reject takes effect, but handlers keep running). -/
structure GenSt where
  full : String
  emitted : List String
  settled : Settled String
deriving DecidableEq

/-- First settlement wins: resolve. -/
def settleOk (st : GenSt) : GenSt :=
  match st.settled with
  | .pending => { st with settled := .resolved st.full }
  | _ => st

/-- First settlement wins: reject. -/
def settleErr (st : GenSt) (msg : String) : GenSt :=
  match st.settled with
  | .pending => { st with settled := .rejected msg }
  | _ => st

/-- JS truthiness of `data.response`: a present, non-empty string. -/
def respTruthy : Option String → Bool
  | some s => s != ""
  | none => false

/-- Processing of one complete line by `generateStream`: blank and malformed
lines are skipped; a truthy `response` is appended to `fullResponse` and
dispatched to `onChunk`; `done` resolves with the accumulated text and
returns from the handler; a string-typed `error` key rejects and returns. -/
def genLineStep (parse : List Char → GenParse) (st : GenSt) (line : List Char) :
    GenSt × Bool :=
  if jsBlank line then (st, false)
  else
    match parse line with
    | .malformed => (st, false)
    | .obj response done error =>
      let st1 :=
        if respTruthy response then
          { st with full := st.full ++ response.getD "",
                    emitted := st.emitted ++ [response.getD ""] }
        else st
      if done then (settleOk st1, true)
      else if error.isSome then (settleErr st1 (error.getD ""), true)
      else (st1, false)

/-- Embedding of `OllamaService.generateStream`: fold the data events, then
the `end` event resolves with `fullResponse` (a no-op when already settled).
Returns the final state and the leftover buffer. -/
def generateStream (parse : List Char → GenParse) (chunks : List (List Char)) :
    GenSt × List Char :=
  (settleOk (runChunks (genLineStep parse) ⟨"", [], .pending⟩ chunks).1,
   (runChunks (genLineStep parse) ⟨"", [], .pending⟩ chunks).2)

/-! ## The model-pull streaming client (`pullModel`) -/

/-- Result of `JSON.parse` on one line of an `/api/pull` stream, reduced to
the fields the client reads: `status`, `completed`, `total`, `error`. -/
inductive PullParse where
  | malformed
  | obj (status : Option String) (completed total : Option Nat) (error : Option String)
deriving DecidableEq

/-- One progress record handed to `onProgress`:
`{status: data.status || 'downloading', completed, total}`. -/
structure PullEvent where
  status : String
  completed : Option Nat
  total : Option Nat
deriving DecidableEq

/-- State of one `pullModel` call: progress events delivered in order and
the promise settlement. -/
structure PullSt where
  events : List PullEvent
  settled : Settled Bool
deriving DecidableEq

/-- First settlement wins: resolve. -/
def pullSettleOk (st : PullSt) : PullSt :=
  match st.settled with
  | .pending => { st with settled := .resolved true }
  | _ => st

/-- First settlement wins: reject. -/
def pullSettleErr (st : PullSt) (msg : String) : PullSt :=
  match st.settled with
  | .pending => { st with settled := .rejected msg }
  | _ => st

/-- JS truthiness of `data.error` in `pullModel`: present and non-empty. -/
def errTruthy : Option String → Bool
  | some s => s != ""
  | none => false

/-- Processing of one complete line by `pullModel`: blank and malformed
lines are skipped; every well-formed line is reported to `onProgress`;
`status === 'success'` resolves `true` and returns; a truthy `error`
rejects and returns. -/
def pullLineStep (parse : List Char → PullParse) (st : PullSt) (line : List Char) :
    PullSt × Bool :=
  if jsBlank line then (st, false)
  else
    match parse line with
    | .malformed => (st, false)
    | .obj status completed total error =>
      let st1 := { st with
        events := st.events ++ [⟨jsOr status "downloading", completed, total⟩] }
      if status = some "success" then (pullSettleOk st1, true)
      else if errTruthy error then (pullSettleErr st1 (error.getD ""), true)
      else (st1, false)

/-- The `end` handler of `pullModel`: a non-blank leftover buffer is parsed
as a final attempt — a `success` status resolves `true`, a truthy `error`
rejects, anything else (including a parse failure) resolves `true`; a blank
leftover also resolves `true`. -/
def pullEnd (parse : List Char → PullParse) (st : PullSt) (buffer : List Char) :
    PullSt :=
  if !(jsBlank buffer) then
    match parse buffer with
    | .malformed => pullSettleOk st
    | .obj status _ _ error =>
      if status = some "success" then pullSettleOk st
      else if errTruthy error then pullSettleErr st (error.getD "")
      else pullSettleOk st
  else pullSettleOk st

/-- Embedding of `OllamaService.pullModel`: fold the data events, then run
the `end` handler on the leftover buffer. -/
def pullModel (parse : List Char → PullParse) (chunks : List (List Char)) :
    PullSt × List Char :=
  (pullEnd parse (runChunks (pullLineStep parse) ⟨[], .pending⟩ chunks).1
     (runChunks (pullLineStep parse) ⟨[], .pending⟩ chunks).2,
   (runChunks (pullLineStep parse) ⟨[], .pending⟩ chunks).2)

/-! ## Facade server startup guard (tts.ts and video-analyzer.ts)

`TTSService.startServer` and `VideoAnalyzerService.startServer` open with
the same guard and then spawn:

  if (this.serverProcess && this.isServerReady) return true;
  ...
  this.serverProcess = spawn(pythonPath, [this.pythonScriptPath], ...);
-/

/-- The facade fields the guard reads and writes, plus a spawn counter for
observing how many backing processes were created. -/
structure FacadeServerState where
  serverProcess : Option Nat
  isServerReady : Bool
  spawnCount : Nat
deriving DecidableEq

/-- The synchronous prefix of `startServer` up to and including the `spawn`
call: return unchanged when a process handle is present and the ready flag
is set, otherwise spawn a fresh process (overwriting the stored handle) and
leave the ready flag as it was. -/
def startServerSpawn (st : FacadeServerState) (pid : Nat) : FacadeServerState :=
  if st.serverProcess.isSome && st.isServerReady then st
  else
    { serverProcess := some pid, isServerReady := st.isServerReady,
      spawnCount := st.spawnCount + 1 }

/-! ## The transcription facade (whisper.ts `transcribe`) -/

/-- A filesystem as an association list from paths to file contents. -/
abbrev FS := List (String × String)

/-- `fs.existsSync` / content lookup. -/
def fsGet (fs : FS) (p : String) : Option String :=
  (fs.find? (fun e => e.1 == p)).map (fun e => e.2)

/-- `fs.existsSync`. -/
def fsExists (fs : FS) (p : String) : Bool :=
  (fsGet fs p).isSome

/-- `fs.unlinkSync` (removing every entry at the path). -/
def fsErase (fs : FS) (p : String) : FS :=
  fs.filter (fun e => !(e.1 == p))

/-- Creating or overwriting a file. -/
def fsSet (fs : FS) (p v : String) : FS :=
  (p, v) :: fsErase fs p

/-- The `activeTranscriptions` map from file paths to process handles. -/
abbrev Registry := List (String × Nat)

/-- `Map.get`. -/
def regGet (reg : Registry) (k : String) : Option Nat :=
  (reg.find? (fun e => e.1 == k)).map (fun e => e.2)

/-- `Map.delete`. -/
def regErase (reg : Registry) (k : String) : Registry :=
  reg.filter (fun e => !(e.1 == k))

/-- `Map.set`: inserts, replacing any existing entry for the key. -/
def regSet (reg : Registry) (k : String) (v : Nat) : Registry :=
  (k, v) :: regErase reg k

/-- One segment of a transcription result. -/
structure Segment where
  segStart : Rat
  segEnd : Rat
  text : String
deriving DecidableEq

/-- The `TranscriptionResult` shape resolved by `transcribe`. -/
structure TranscriptionResult where
  text : String
  segments : List Segment
  language : String
  duration : Rat
deriving DecidableEq

/-- Failures rejected by `transcribe`, with their message strings. -/
inductive TranscribeError where
  | modelNotDownloaded (msg : String)
  | fileNotFound (msg : String)
  | conversionFailed (msg : String)
  | transcriptionFailed (msg : String)
  | startFailed (msg : String)
deriving DecidableEq

/-- Settled outcome of one `transcribe` call. -/
inductive TranscribeOutcome where
  | ok (result : TranscriptionResult)
  | error (e : TranscribeError)
deriving DecidableEq

/-- Outcome of the external audio-conversion command (`convertToWav`):
either the path of the produced 16kHz mono 16-bit PCM WAV file or the
failure message. -/
inductive ConvertResult where
  | converted (outputPath : String)
  | failed (msg : String)
deriving DecidableEq

/-- How the spawned recognition process settles: a `close` event with an
exit code, or an `error` event when the process failed to start. -/
inductive ProcEvent where
  | close (code : Int)
  | errored (msg : String)
deriving DecidableEq

/-- Environment of one `transcribe` call: the filesystem at entry, the
registry at entry, the conversion outcome (consulted only when conversion
is needed), the settlement event of the recognition process, its
accumulated stderr, the handle of the spawned process and the output base
path chosen for `-of`. -/
structure TranscribeEnv where
  fs : FS
  registry : Registry
  convertOutcome : ConvertResult
  event : ProcEvent
  stderrOut : String
  procId : Nat
  outputBase : String
deriving DecidableEq

/-- Observable effects of one `transcribe` call. -/
structure TranscribeRun where
  outcome : TranscribeOutcome
  registry : Registry
  regAfterSpawn : Registry
  fs : FS
  spawned : Bool
  conversionInvoked : Bool
  convertedFile : Option String
deriving DecidableEq

/-- The placeholder text resolved when the recognition process exits 0 but
produced neither a `.json` nor a `.txt` output file. -/
def noOutputPlaceholder : String :=
  "Transcription completed but no output file found. Check if the audio format is supported."

/-- The `cleanup()` closure of `transcribe`: delete the converted temp
file, when one was produced. -/
def cleanupFs (convertedFile : Option String) (fs1 : FS) : FS :=
  match convertedFile with
  | some p => fsErase fs1 p
  | none => fs1

/-- The settlement phase of `transcribe`, entered once the recognition
process has been spawned: on `close` and on `error` the registry entry is
deleted and `cleanup()` removes the converted temp file (when one was
produced); a non-zero exit code rejects with the stderr tail; on exit code
zero the `.json` output is preferred, then the `.txt` output, then the
degraded placeholder result.  Returns the outcome, the final registry and
the final filesystem. -/
def transcribeSettle (env : TranscribeEnv) (filePath : String)
    (optLanguage : Option String) (parseOut : String → TranscriptionResult)
    (convertedFile : Option String) (fs1 : FS) (reg1 : Registry) :
    TranscribeOutcome × Registry × FS :=
  match env.event with
  | .errored msg =>
    (.error (.startFailed ("Failed to start transcription: " ++ msg)),
      regErase reg1 filePath, cleanupFs convertedFile fs1)
  | .close code =>
    if code ≠ 0 then
      (.error (.transcriptionFailed
          ("Transcription failed: " ++
            (if env.stderrOut = "" then "Unknown error" else env.stderrOut))),
        regErase reg1 filePath, cleanupFs convertedFile fs1)
    else
      match fsGet (cleanupFs convertedFile fs1) (env.outputBase ++ ".json") with
      | some content =>
        (.ok (parseOut content), regErase reg1 filePath,
          fsErase (cleanupFs convertedFile fs1) (env.outputBase ++ ".json"))
      | none =>
        match fsGet (cleanupFs convertedFile fs1) (env.outputBase ++ ".txt") with
        | some text =>
          (.ok { text := jsTrim text, segments := [],
                 language := jsOr optLanguage "auto", duration := 0 },
            regErase reg1 filePath,
            fsErase (cleanupFs convertedFile fs1) (env.outputBase ++ ".txt"))
        | none =>
          (.ok { text := noOutputPlaceholder, segments := [],
                 language := jsOr optLanguage "unknown", duration := 0 },
            regErase reg1 filePath, cleanupFs convertedFile fs1)

/-- Embedding of `WhisperService.transcribe`: model-presence and
file-presence checks, the conversion step for unsupported extensions, the
unconditional registry insertion at spawn, then the settlement phase.
`parseOut` abstracts `parseWhisperOutput` on the JSON file text. -/
def transcribe (env : TranscribeEnv) (filePath : String)
    (optModel optLanguage : Option String)
    (parseOut : String → TranscriptionResult) (modelsDir : String) : TranscribeRun :=
  let modelName := jsOr optModel "tiny"
  let modelPath := modelsDir ++ "/ggml-" ++ modelName ++ ".bin"
  if !(fsExists env.fs modelPath) then
    { outcome := .error (.modelNotDownloaded
        ("Model " ++ modelName ++ " is not downloaded. Please download it first.")),
      registry := env.registry, regAfterSpawn := env.registry, fs := env.fs,
      spawned := false, conversionInvoked := false, convertedFile := none }
  else if !(fsExists env.fs filePath) then
    { outcome := .error (.fileNotFound ("File not found: " ++ filePath)),
      registry := env.registry, regAfterSpawn := env.registry, fs := env.fs,
      spawned := false, conversionInvoked := false, convertedFile := none }
  else
    match if needsConversion filePath then some env.convertOutcome else none with
    | some (.failed msg) =>
      { outcome := .error (.conversionFailed ("Failed to convert audio file: " ++ msg)),
        registry := env.registry, regAfterSpawn := env.registry, fs := env.fs,
        spawned := false, conversionInvoked := true, convertedFile := none }
    | other =>
      let convertedFile : Option String :=
        match other with
        | some (.converted p) => some p
        | _ => none
      let fs1 : FS :=
        match convertedFile with
        | some p => fsSet env.fs p "(converted wav)"
        | none => env.fs
      let reg1 := regSet env.registry filePath env.procId
      let s := transcribeSettle env filePath optLanguage parseOut convertedFile fs1 reg1
      { outcome := s.1, registry := s.2.1, regAfterSpawn := reg1, fs := s.2.2,
        spawned := true, conversionInvoked := needsConversion filePath,
        convertedFile := convertedFile }

/-! ## Derived stream notions used by the streaming-client theorems -/

/-- A line on which the `generateStream` data handler returns early: a
non-blank, well-formed line whose object is `done` or carries an `error`
key. -/
def genStopper (parse : List Char → GenParse) (l : List Char) : Bool :=
  !(jsBlank l) &&
    (match parse l with
     | .malformed => false
     | .obj _ done error => done || error.isSome)

/-- A non-blank well-formed line carrying an `error` key. -/
def genErrLine (parse : List Char → GenParse) (l : List Char) : Bool :=
  !(jsBlank l) &&
    (match parse l with
     | .malformed => false
     | .obj _ _ error => error.isSome)

/-- The response that one complete line contributes to `onChunk` and to
`fullResponse`, if any: blank, malformed, response-less and
empty-response lines contribute nothing. -/
def lineResp (parse : List Char → GenParse) (l : List Char) : Option String :=
  if jsBlank l then none
  else
    match parse l with
    | .obj (some s) _ _ => if s = "" then none else some s
    | _ => none

/-- The responses of the well-formed lines of a stream, in order. -/
def wfResponses (parse : List Char → GenParse) (ls : List (List Char)) : List String :=
  ls.filterMap (lineResp parse)

/-- Concatenation of a list of strings. -/
def strConcat : List String → String
  | [] => ""
  | s :: rest => s ++ strConcat rest

/-- A line on which the `pullModel` data handler returns early: a non-blank,
well-formed line reporting the `success` status or a truthy `error`. -/
def pullStopper (parse : List Char → PullParse) (l : List Char) : Bool :=
  !(jsBlank l) &&
    (match parse l with
     | .malformed => false
     | .obj status _ _ error => decide (status = some "success") || errTruthy error)

/-- The progress record one complete line contributes to `onProgress`, if
any. -/
def pullEventOf (parse : List Char → PullParse) (l : List Char) : Option PullEvent :=
  if jsBlank l then none
  else
    match parse l with
    | .malformed => none
    | .obj status completed total _ => some ⟨jsOr status "downloading", completed, total⟩

/-- The progress records of the well-formed lines of a stream, in order. -/
def pullEvents (parse : List Char → PullParse) (ls : List (List Char)) : List PullEvent :=
  ls.filterMap (pullEventOf parse)

/-- A concrete line parser for exercising `generateStream` on a sample
stream: `ga` is a response chunk, `gb` the final done chunk, anything else
is malformed. -/
def testGenParse (l : List Char) : GenParse :=
  if l = "ga".data then .obj (some "A") false none
  else if l = "gb".data then .obj (some "B!") true none
  else .malformed

/-- A sample `generateStream` byte stream: the complete lines are `ga`, the
malformed `zz` and the final `gb`, and `x` stays in the buffer. -/
def testGenChunks : List (List Char) :=
  ["ga\nz".data, "z\ngb".data, "\nx".data]

/-- A concrete line parser for exercising `pullModel`: `p` is a progress
line (status `downloading`), anything else is malformed. -/
def testPullParse (l : List Char) : PullParse :=
  if l = "p".data then .obj (some "downloading") (some 1) (some 2) none
  else .malformed

/-- A sample `pullModel` stream whose only complete line is a progress
line and whose connection closes with `p` still buffered. -/
def testPullChunks : List (List Char) :=
  ["p\np".data]

/-! ## Helper lemmas -/

theorem runningTotals_chain (l : List Nat) : ∀ acc : Nat,
    List.Chain' (· ≤ ·) (runningTotals acc l) := by
  induction l with
  | nil => intro acc; simp [runningTotals]
  | cons n ns ih =>
    intro acc
    rw [runningTotals, List.chain'_cons']
    refine ⟨?_, ih (acc + n)⟩
    intro b hb
    cases ns with
    | nil => simp [runningTotals] at hb
    | cons m ms =>
      simp [runningTotals] at hb
      omega

theorem roundPct_mono (t : Nat) {d d' : Nat} (h : d ≤ d') :
    roundPct d t ≤ roundPct d' t :=
  Nat.div_le_div_right (by omega)

theorem roundPct_eq_round (d t : Nat) (ht : 0 < t) :
    (roundPct d t : ℤ) = round ((d : ℚ) * 100 / t) := by
  have htQ : (t : ℚ) ≠ 0 := by exact_mod_cast ht.ne'
  have h1 : (d : ℚ) * 100 / t + 1 / 2 = ((200 * d + t : ℕ) : ℚ) / ((2 * t : ℕ) : ℚ) := by
    push_cast
    field_simp
    ring
  rw [round_eq, h1]
  have h2 : (0 : ℚ) ≤ ((200 * d + t : ℕ) : ℚ) / ((2 * t : ℕ) : ℚ) := by positivity
  rw [← Int.natCast_floor_eq_floor h2, Nat.floor_div_eq_div]
  rfl

theorem fsGet_cons (e : String × String) (fs : FS) (p : String) :
    fsGet (e :: fs) p = if e.1 = p then some e.2 else fsGet fs p := by
  by_cases h : e.1 = p
  · simp [fsGet, List.find?_cons_of_pos, h]
  · rw [if_neg h]
    simp only [fsGet]
    rw [List.find?_cons_of_neg _ (by simp [h])]

theorem fsErase_cons (e : String × String) (fs : FS) (q : String) :
    fsErase (e :: fs) q = if e.1 = q then fsErase fs q else e :: fsErase fs q := by
  simp only [fsErase, List.filter_cons]
  by_cases h : e.1 = q
  · simp [h]
  · simp [h]

theorem fsGet_fsErase (fs : FS) (p q : String) :
    fsGet (fsErase fs q) p = if p = q then none else fsGet fs p := by
  induction fs with
  | nil => simp [fsGet, fsErase]
  | cons e fs ih =>
    rw [fsErase_cons]
    by_cases hq : e.1 = q
    · rw [if_pos hq, ih, fsGet_cons]
      by_cases hpq : p = q
      · simp [hpq]
      · have hep : ¬ e.1 = p := fun hcon => hpq (by rw [← hcon, hq])
        simp [hpq, hep]
    · rw [if_neg hq, fsGet_cons, fsGet_cons, ih]
      by_cases hp : e.1 = p
      · have hpq : ¬ p = q := fun hcon => hq (by rw [hp, hcon])
        simp [hp, hpq]
      · simp [hp]

theorem fsExists_fsErase_self (fs : FS) (p : String) :
    fsExists (fsErase fs p) p = false := by
  simp [fsExists, fsGet_fsErase]

theorem fsExists_fsErase_of_false (fs : FS) (p q : String)
    (h : fsExists fs p = false) : fsExists (fsErase fs q) p = false := by
  by_cases hpq : p = q
  · simp [fsExists, fsGet_fsErase, hpq]
  · simpa [fsExists, fsGet_fsErase, hpq] using h

/-! ## Claim theorems: the download engine -/

/-- C4: for a model identifier absent from the download catalog,
`downloadModel` fails with the unknown-model error, issues no HTTP request
and never creates the temp file. -/
theorem downloadModel_unknown_no_io (name : String) (first second : NetResult)
    (h : modelDownloadUrl name = none) :
    downloadModel name first second =
      { outcome := .error (.unknownModel name), requests := 0, tmpCreated := false,
        tmpExists := false, finalExists := false, progress := [] } := by
  unfold downloadModel
  rw [h]

theorem downloadModel_unknown_no_io_witness :
    modelDownloadUrl "huge" = none ∧
      downloadModel "huge" (.resp 200 none none [10]) (.resp 200 none none []) =
        { outcome := .error (.unknownModel "huge"), requests := 0, tmpCreated := false,
          tmpExists := false, finalExists := false, progress := [] } :=
  ⟨by decide, downloadModel_unknown_no_io "huge" _ _ (by decide)⟩

/-- C6: while streaming a download body, each received chunk accumulates
the downloaded byte count; with a positive `Content-Length` total `t` the
progress callback receives exactly `round(downloaded / t * 100)` for every
chunk (the exact rational rounding of the JS expression), and with no
`Content-Length` header the callback is never invoked. -/
theorem downloadProgress_per_chunk (cl : String) (chunks : List Nat) (t : Nat)
    (hparse : parseIntPrefix cl = t) (ht : 0 < t) :
    downloadProgressEvents (some cl) chunks
        = (runningTotals 0 chunks).map (fun d => roundPct d t)
      ∧ (∀ d, (roundPct d t : ℤ) = round ((d : ℚ) * 100 / t))
      ∧ downloadProgressEvents none chunks = [] := by
  refine ⟨?_, fun d => roundPct_eq_round d t ht, ?_⟩
  · simp [downloadProgressEvents, hparse, ht]
  · simp [downloadProgressEvents, parseIntPrefix, digitsVal]

theorem downloadProgress_per_chunk_witness :
    (parseIntPrefix "1000" = 1000 ∧ 0 < 1000) ∧
      (downloadProgressEvents (some "1000") [500, 500]
          = (runningTotals 0 [500, 500]).map (fun d => roundPct d 1000)
        ∧ (∀ d, (roundPct d 1000 : ℤ) = round ((d : ℚ) * 100 / 1000))
        ∧ downloadProgressEvents none [500, 500] = []) :=
  ⟨⟨by decide, by decide⟩,
    downloadProgress_per_chunk "1000" [500, 500] 1000 (by decide) (by decide)⟩

/-- C5 counterexample: a recognition process whose stdout prints
`progress = 50%` and then `progress = 30%` makes the transcription facade
deliver the percent sequence `[50, 30]`, which is not non-decreasing — the
code forwards stdout percentages without enforcing order. -/
theorem transcriptionProgress_not_monotone_cex :
    transcriptionProgressEvents ["progress = 50%", "progress = 30%"] = [50, 30]
      ∧ ¬ List.Chain' (· ≤ ·) ([50, 30] : List Nat) := by
  constructor
  · rfl
  · intro h
    rw [List.chain'_cons] at h
    exact absurd h.1 (by omega)

/-- C5 (amended): the progress sequence delivered for a model download is
always non-decreasing (byte totals only grow and the rounding is monotone);
transcription progress merely forwards whatever percentages the recognition
process prints, with no ordering enforcement. -/
theorem downloadProgress_monotone (cl : Option String) (chunks : List Nat) :
    List.Chain' (· ≤ ·) (downloadProgressEvents cl chunks) := by
  unfold downloadProgressEvents
  split
  · rw [List.chain'_map]
    exact (runningTotals_chain chunks 0).imp (fun a b h => roundPct_mono _ h)
  · simp

/-- C3 counterexample: requesting the catalog model `tiny` when the server
answers 302 with a `Location` and the redirect target answers 404 makes the
download fail with the status embedded, yet the `.tmp` file is left on disk
(`downloadFromUrl` rejects without deleting it). -/
theorem downloadModel_redirect_tmp_left_cex :
    (downloadModel "tiny" (.resp 302 (some "u") none []) (.resp 404 none none [])).outcome
        = .error (.http 404)
      ∧ (downloadModel "tiny" (.resp 302 (some "u") none [])
          (.resp 404 none none [])).tmpExists = true := by
  constructor
  · rfl
  · rfl

/-- C3 (amended): whenever the final HTTP status of a model download is not
200 the call fails with that status embedded in the error and no file
exists at the final destination; the `.tmp` file is deleted when the
non-200 status arrived without a redirect, but after a redirect hop a
non-200 status leaves the temp file behind. -/
theorem downloadModel_non200 (name url : String) (h : modelDownloadUrl name = some url)
    (st : Nat) (loc cl : Option String) (chunks : List Nat)
    (second : NetResult) (st2 : Nat) (loc2 cl2 : Option String) (chunks2 : List Nat) :
    (¬ ((st = 301 ∨ st = 302) ∧ loc.isSome) → st ≠ 200 →
        downloadModel name (.resp st loc cl chunks) second =
          { outcome := .error (.http st), requests := 1, tmpCreated := true,
            tmpExists := false, finalExists := false, progress := [] })
    ∧ ((st = 301 ∨ st = 302) → loc.isSome → st2 ≠ 200 →
        downloadModel name (.resp st loc cl chunks) (.resp st2 loc2 cl2 chunks2) =
          { outcome := .error (.http st2), requests := 2, tmpCreated := true,
            tmpExists := true, finalExists := false, progress := [] }) := by
  constructor
  · intro hnr h200
    unfold downloadModel
    rw [h]
    simp [hnr, h200]
  · intro hr hloc h200
    unfold downloadModel
    rw [h]
    simp [hr, hloc, h200]

theorem downloadModel_non200_witness :
    (modelDownloadUrl "tiny"
        = some "https://huggingface.co/ggerganov/whisper.cpp/resolve/main/ggml-tiny.bin"
      ∧ ¬ (((404 : Nat) = 301 ∨ (404 : Nat) = 302) ∧ (none : Option String).isSome)
      ∧ (404 : Nat) ≠ 200) ∧
      downloadModel "tiny" (.resp 404 none none []) (.resp 200 none none []) =
        { outcome := .error (.http 404), requests := 1, tmpCreated := true,
          tmpExists := false, finalExists := false, progress := [] } :=
  ⟨⟨by decide, by decide, by decide⟩,
    (downloadModel_non200 "tiny"
        "https://huggingface.co/ggerganov/whisper.cpp/resolve/main/ggml-tiny.bin"
        (by decide) 404 none none [] (.resp 200 none none []) 200 none none []).1
      (by decide) (by decide)⟩

/-! ## Claim theorems: facade startup and the job registry -/

/-- C1 counterexample: with the TTS facade fresh (`serverProcess = null`,
ready flag false), a first `startServer` call spawns and stores a handle
while the ready flag is still false; a second call in that in-flight state
spawns again, for a total of two backing processes rather than one. -/
theorem startServer_inflight_duplicate_cex :
    (startServerSpawn ⟨none, false, 0⟩ 1).serverProcess = some 1
      ∧ (startServerSpawn ⟨none, false, 0⟩ 1).isServerReady = false
      ∧ (startServerSpawn (startServerSpawn ⟨none, false, 0⟩ 1) 2).spawnCount = 2
      ∧ ¬ (startServerSpawn (startServerSpawn ⟨none, false, 0⟩ 1) 2).spawnCount = 1 := by
  decide

/-- C1 (amended): the `startServer` guard of the TTS and video-analyzer
facades deduplicates only once the server is fully ready: with a stored
handle and the ready flag set, a second call spawns nothing and returns the
state unchanged; with a stored handle but the ready flag still false (a
start in flight), a second call spawns another process and overwrites the
stored handle. -/
theorem startServer_dedup_only_when_ready (st : FacadeServerState) (pid : Nat)
    (h : st.serverProcess.isSome = true) :
    (st.isServerReady = true →
        startServerSpawn st pid = st
          ∧ (startServerSpawn st pid).spawnCount = st.spawnCount)
    ∧ (st.isServerReady = false →
        (startServerSpawn st pid).spawnCount = st.spawnCount + 1
          ∧ (startServerSpawn st pid).serverProcess = some pid) := by
  constructor
  · intro hr
    have : startServerSpawn st pid = st := by
      unfold startServerSpawn
      simp [h, hr]
    exact ⟨this, by rw [this]⟩
  · intro hr
    unfold startServerSpawn
    simp [hr]

theorem startServer_dedup_only_when_ready_witness :
    ((⟨some 1, false, 1⟩ : FacadeServerState).serverProcess.isSome = true
        ∧ (⟨some 1, false, 1⟩ : FacadeServerState).isServerReady = false) ∧
      ((startServerSpawn ⟨some 1, false, 1⟩ 2).spawnCount = 1 + 1
        ∧ (startServerSpawn ⟨some 1, false, 1⟩ 2).serverProcess = some 2) :=
  ⟨⟨by decide, by decide⟩,
    (startServer_dedup_only_when_ready ⟨some 1, false, 1⟩ 2 (by decide)).2 (by decide)⟩

/-! ## Claim theorems: the transcription facade -/

theorem regGet_regSet (reg : Registry) (k : String) (v : Nat) :
    regGet (regSet reg k v) k = some v := by
  simp only [regGet, regSet]
  rw [List.find?_cons_of_pos _ (by simp)]
  rfl

theorem transcribeSettle_cleanup (env : TranscribeEnv) (filePath : String)
    (optLanguage : Option String) (parseOut : String → TranscriptionResult)
    (p : String) (fs1 : FS) (reg1 : Registry) :
    fsExists
        (transcribeSettle env filePath optLanguage parseOut (some p) fs1 reg1).2.2 p
      = false := by
  have hself : fsExists (cleanupFs (some p) fs1) p = false := fsExists_fsErase_self fs1 p
  unfold transcribeSettle
  cases env.event with
  | errored msg => exact hself
  | close code =>
    by_cases hcode : code ≠ 0
    · simp only [if_pos hcode]
      exact hself
    · simp only [if_neg hcode]
      rcases hjson : fsGet (cleanupFs (some p) fs1) (env.outputBase ++ ".json")
        with _ | content
      · simp only [hjson]
        rcases htxt : fsGet (cleanupFs (some p) fs1) (env.outputBase ++ ".txt")
          with _ | text
        · simp only [htxt]
          exact hself
        · simp only [htxt]
          exact fsExists_fsErase_of_false _ _ _ hself
      · simp only [hjson]
        exact fsExists_fsErase_of_false _ _ _ hself

/-- C2 counterexample: with an active transcription registered for
`a.wav` (handle 7), a second `transcribe` call for the same path does not
fail: it spawns (handle 8), its registry entry replaces the active one, and
the call settles successfully — there is no duplicate-job rejection. -/
theorem transcribe_duplicate_superseded_cex :
    (transcribe ⟨[("/m/ggml-tiny.bin", "b"), ("a.wav", "x")], [("a.wav", 7)],
          .converted "c", .close 0, "", 8, "/tmp/out"⟩
        "a.wav" none none (fun s => ⟨s, [], "unknown", 0⟩) "/m").spawned = true
      ∧ regGet
          (transcribe ⟨[("/m/ggml-tiny.bin", "b"), ("a.wav", "x")], [("a.wav", 7)],
              .converted "c", .close 0, "", 8, "/tmp/out"⟩
            "a.wav" none none (fun s => ⟨s, [], "unknown", 0⟩) "/m").regAfterSpawn "a.wav"
        = some 8
      ∧ (transcribe ⟨[("/m/ggml-tiny.bin", "b"), ("a.wav", "x")], [("a.wav", 7)],
            .converted "c", .close 0, "", 8, "/tmp/out"⟩
          "a.wav" none none (fun s => ⟨s, [], "unknown", 0⟩) "/m").outcome
        = .ok ⟨noOutputPlaceholder, [], "unknown", 0⟩ := by
  refine ⟨by decide, by decide, by decide⟩

/-- C2 (amended): starting a transcription for a file path is never
rejected on account of an existing active job: whenever the model and the
input file exist (and conversion, when needed, succeeds), the call spawns a
process and unconditionally installs its registry entry with `Map.set`,
superseding any active entry under the same path. -/
theorem transcribe_supersedes_active
    (env : TranscribeEnv) (filePath : String) (optModel optLanguage : Option String)
    (parseOut : String → TranscriptionResult) (modelsDir : String)
    (hm : fsExists env.fs (modelsDir ++ "/ggml-" ++ jsOr optModel "tiny" ++ ".bin") = true)
    (hf : fsExists env.fs filePath = true)
    (hconv : needsConversion filePath = true → ∃ q, env.convertOutcome = .converted q) :
    (transcribe env filePath optModel optLanguage parseOut modelsDir).spawned = true
      ∧ (transcribe env filePath optModel optLanguage parseOut modelsDir).regAfterSpawn
        = regSet env.registry filePath env.procId
      ∧ regGet
          (transcribe env filePath optModel optLanguage parseOut modelsDir).regAfterSpawn
          filePath
        = some env.procId := by
  cases hc : needsConversion filePath with
  | false =>
    refine ⟨by simp [transcribe, hm, hf, hc], by simp [transcribe, hm, hf, hc], ?_⟩
    rw [show (transcribe env filePath optModel optLanguage parseOut modelsDir).regAfterSpawn
        = regSet env.registry filePath env.procId by simp [transcribe, hm, hf, hc]]
    exact regGet_regSet _ _ _
  | true =>
    obtain ⟨q, hq⟩ := hconv hc
    refine ⟨by simp [transcribe, hm, hf, hc, hq], by simp [transcribe, hm, hf, hc, hq], ?_⟩
    rw [show (transcribe env filePath optModel optLanguage parseOut modelsDir).regAfterSpawn
        = regSet env.registry filePath env.procId by simp [transcribe, hm, hf, hc, hq]]
    exact regGet_regSet _ _ _

theorem transcribe_supersedes_active_witness :
    (fsExists [("/m/ggml-tiny.bin", "b"), ("a.wav", "x")]
          ("/m" ++ "/ggml-" ++ jsOr none "tiny" ++ ".bin") = true
      ∧ fsExists [("/m/ggml-tiny.bin", "b"), ("a.wav", "x")] "a.wav" = true) ∧
      ((transcribe ⟨[("/m/ggml-tiny.bin", "b"), ("a.wav", "x")], [("a.wav", 7)],
            .converted "c", .close 1, "boom", 9, "/tmp/out"⟩
          "a.wav" none none (fun s => ⟨s, [], "unknown", 0⟩) "/m").spawned = true
        ∧ (transcribe ⟨[("/m/ggml-tiny.bin", "b"), ("a.wav", "x")], [("a.wav", 7)],
              .converted "c", .close 1, "boom", 9, "/tmp/out"⟩
            "a.wav" none none (fun s => ⟨s, [], "unknown", 0⟩) "/m").regAfterSpawn
          = regSet [("a.wav", 7)] "a.wav" 9
        ∧ regGet
            (transcribe ⟨[("/m/ggml-tiny.bin", "b"), ("a.wav", "x")], [("a.wav", 7)],
                .converted "c", .close 1, "boom", 9, "/tmp/out"⟩
              "a.wav" none none (fun s => ⟨s, [], "unknown", 0⟩) "/m").regAfterSpawn "a.wav"
          = some 9) :=
  ⟨⟨by decide, by decide⟩,
    transcribe_supersedes_active
      ⟨[("/m/ggml-tiny.bin", "b"), ("a.wav", "x")], [("a.wav", 7)],
        .converted "c", .close 1, "boom", 9, "/tmp/out"⟩
      "a.wav" none none (fun s => ⟨s, [], "unknown", 0⟩) "/m" (by decide) (by decide)
      (fun h => absurd h (by decide))⟩

/-- C8: a transcription converts its input exactly when the lowercased
file extension is outside the supported set `{.flac, .mp3, .ogg, .wav}`,
and whenever a converted temporary file was produced it no longer exists on
the resulting filesystem after the call settles — on the success path, the
recognition-failure path and the start-failure path alike. -/
theorem transcribe_conversion_and_cleanup
    (env : TranscribeEnv) (filePath : String) (optModel optLanguage : Option String)
    (parseOut : String → TranscriptionResult) (modelsDir : String)
    (hm : fsExists env.fs (modelsDir ++ "/ggml-" ++ jsOr optModel "tiny" ++ ".bin") = true)
    (hf : fsExists env.fs filePath = true) :
    (transcribe env filePath optModel optLanguage parseOut modelsDir).conversionInvoked
        = needsConversion filePath
      ∧ needsConversion filePath
        = !(SUPPORTED_FORMATS.contains (strToLower (extname filePath)))
      ∧ ∀ p,
          (transcribe env filePath optModel optLanguage parseOut modelsDir).convertedFile
              = some p →
            fsExists (transcribe env filePath optModel optLanguage parseOut modelsDir).fs p
              = false := by
  refine ⟨?_, rfl, ?_⟩
  · cases hc : needsConversion filePath with
    | false => simp [transcribe, hm, hf, hc]
    | true =>
      cases hco : env.convertOutcome with
      | failed msg => simp [transcribe, hm, hf, hc, hco]
      | converted q => simp [transcribe, hm, hf, hc, hco]
  · intro p hp
    cases hc : needsConversion filePath with
    | false => simp [transcribe, hm, hf, hc] at hp
    | true =>
      cases hco : env.convertOutcome with
      | failed msg => simp [transcribe, hm, hf, hc, hco] at hp
      | converted q =>
        simp only [transcribe, hm, hf, hc, hco] at hp ⊢
        simp at hp
        subst hp
        simp
        exact transcribeSettle_cleanup _ _ _ _ _ _ _

theorem transcribe_conversion_and_cleanup_witness :
    (fsExists [("/m/ggml-tiny.bin", "b"), ("clip.m4a", "a")]
          ("/m" ++ "/ggml-" ++ jsOr none "tiny" ++ ".bin") = true
      ∧ fsExists [("/m/ggml-tiny.bin", "b"), ("clip.m4a", "a")] "clip.m4a" = true
      ∧ (transcribe ⟨[("/m/ggml-tiny.bin", "b"), ("clip.m4a", "a")], [],
            .converted "/tmp/conv.wav", .close 0, "", 8, "/tmp/out"⟩
          "clip.m4a" none none (fun s => ⟨s, [], "unknown", 0⟩) "/m").convertedFile
        = some "/tmp/conv.wav") ∧
      fsExists
          (transcribe ⟨[("/m/ggml-tiny.bin", "b"), ("clip.m4a", "a")], [],
              .converted "/tmp/conv.wav", .close 0, "", 8, "/tmp/out"⟩
            "clip.m4a" none none (fun s => ⟨s, [], "unknown", 0⟩) "/m").fs
          "/tmp/conv.wav"
        = false :=
  ⟨⟨by decide, by decide, by decide⟩,
    (transcribe_conversion_and_cleanup
        ⟨[("/m/ggml-tiny.bin", "b"), ("clip.m4a", "a")], [],
          .converted "/tmp/conv.wav", .close 0, "", 8, "/tmp/out"⟩
        "clip.m4a" none none (fun s => ⟨s, [], "unknown", 0⟩) "/m"
        (by decide) (by decide)).2.2
      "/tmp/conv.wav" (by decide)⟩

/-- C9: when the recognition process exits with code 0 but neither the
`.json` nor the `.txt` output file exists, `transcribe` resolves
successfully with the explanatory placeholder text and an empty segment
list rather than rejecting. -/
theorem transcribe_no_output_degraded
    (env : TranscribeEnv) (filePath : String) (optModel optLanguage : Option String)
    (parseOut : String → TranscriptionResult) (modelsDir : String)
    (hm : fsExists env.fs (modelsDir ++ "/ggml-" ++ jsOr optModel "tiny" ++ ".bin") = true)
    (hf : fsExists env.fs filePath = true)
    (hconv : needsConversion filePath = false)
    (hev : env.event = .close 0)
    (hjson : fsGet env.fs (env.outputBase ++ ".json") = none)
    (htxt : fsGet env.fs (env.outputBase ++ ".txt") = none) :
    (transcribe env filePath optModel optLanguage parseOut modelsDir).outcome
      = .ok { text := noOutputPlaceholder, segments := [],
              language := jsOr optLanguage "unknown", duration := 0 } := by
  simp [transcribe, transcribeSettle, cleanupFs, hm, hf, hconv, hev, hjson, htxt]

theorem transcribe_no_output_degraded_witness :
    (fsExists [("/m/ggml-tiny.bin", "b"), ("in.wav", "a")]
          ("/m" ++ "/ggml-" ++ jsOr none "tiny" ++ ".bin") = true
      ∧ fsExists [("/m/ggml-tiny.bin", "b"), ("in.wav", "a")] "in.wav" = true
      ∧ needsConversion "in.wav" = false
      ∧ fsGet [("/m/ggml-tiny.bin", "b"), ("in.wav", "a")] ("/tmp/out" ++ ".json") = none
      ∧ fsGet [("/m/ggml-tiny.bin", "b"), ("in.wav", "a")] ("/tmp/out" ++ ".txt") = none) ∧
      (transcribe ⟨[("/m/ggml-tiny.bin", "b"), ("in.wav", "a")], [],
            .converted "c", .close 0, "", 8, "/tmp/out"⟩
          "in.wav" none none (fun s => ⟨s, [], "unknown", 0⟩) "/m").outcome
        = .ok { text := noOutputPlaceholder, segments := [],
                language := jsOr none "unknown", duration := 0 } :=
  ⟨⟨by decide, by decide, by decide, by decide, by decide⟩,
    transcribe_no_output_degraded
      ⟨[("/m/ggml-tiny.bin", "b"), ("in.wav", "a")], [],
        .converted "c", .close 0, "", 8, "/tmp/out"⟩
      "in.wav" none none (fun s => ⟨s, [], "unknown", 0⟩) "/m"
      (by decide) (by decide) (by decide) rfl (by decide) (by decide)⟩

/-! ## Stream buffering lemmas -/

theorem splitNl_eq_of_no_nl (s : List Char) (h : '\n' ∉ s) : splitNl s = ([], s) := by
  induction s with
  | nil => rfl
  | cons c cs ih =>
    have hc : ¬ c = '\n' := fun hcc => h (hcc ▸ List.mem_cons_self c cs)
    have hcs : '\n' ∉ cs := fun hm => h (List.mem_cons_of_mem _ hm)
    simp [splitNl, ih hcs, hc]

theorem splitNl_cons_nl (t : List Char) :
    splitNl ('\n' :: t) = ([] :: (splitNl t).1, (splitNl t).2) := by
  simp [splitNl]

theorem splitNl_cons_of_ne (c : Char) (t : List Char) (hc : ¬ c = '\n') :
    splitNl (c :: t)
      = (match (splitNl t).1 with
         | [] => ([], c :: (splitNl t).2)
         | l :: ls => ((c :: l) :: ls, (splitNl t).2)) := by
  simp [splitNl, hc]

theorem splitNl_snd_no_nl (s : List Char) : '\n' ∉ (splitNl s).2 := by
  induction s with
  | nil => simp [splitNl]
  | cons c cs ih =>
    by_cases hc : c = '\n'
    · subst hc
      rw [splitNl_cons_nl]
      exact ih
    · rcases hp : (splitNl cs).1 with _ | ⟨l, ls⟩
      · rw [splitNl_cons_of_ne c cs hc, hp]
        show '\n' ∉ c :: (splitNl cs).2
        simp only [List.mem_cons, not_or]
        exact ⟨fun hcon => hc hcon.symm, ih⟩
      · rw [splitNl_cons_of_ne c cs hc, hp]
        show '\n' ∉ (splitNl cs).2
        exact ih

theorem splitNl_fst_nil (s : List Char) (h : (splitNl s).1 = []) : (splitNl s).2 = s := by
  induction s with
  | nil => rfl
  | cons c cs ih =>
    by_cases hc : c = '\n'
    · subst hc
      rw [splitNl_cons_nl] at h
      simp at h
    · rcases hp : (splitNl cs).1 with _ | ⟨l, ls⟩
      · rw [splitNl_cons_of_ne c cs hc, hp]
        show c :: (splitNl cs).2 = c :: cs
        rw [ih hp]
      · rw [splitNl_cons_of_ne c cs hc, hp] at h
        simp at h

theorem splitNl_append (a b : List Char) :
    splitNl (a ++ b)
      = ((splitNl a).1 ++ (splitNl ((splitNl a).2 ++ b)).1,
         (splitNl ((splitNl a).2 ++ b)).2) := by
  induction a with
  | nil => simp [splitNl]
  | cons c a ih =>
    by_cases hc : c = '\n'
    · subst hc
      rw [List.cons_append, splitNl_cons_nl, splitNl_cons_nl, ih]
      simp [List.cons_append]
    · rcases h1 : (splitNl a).1 with _ | ⟨l, ls⟩
      · have h2 := splitNl_fst_nil a h1
        rw [List.cons_append, splitNl_cons_of_ne c (a ++ b) hc,
          splitNl_cons_of_ne c a hc, ih, h1, h2]
        simp [List.cons_append]
        rw [splitNl_cons_of_ne c (a ++ b) hc]
      · rw [List.cons_append, splitNl_cons_of_ne c (a ++ b) hc,
          splitNl_cons_of_ne c a hc, ih, h1]
        simp [List.cons_append]

theorem linesRun_cons_of_stop_false {σ : Type} (step : σ → List Char → σ × Bool)
    (st : σ) (x : List Char) (t : List (List Char)) (hx : (step st x).2 = false) :
    linesRun step st (x :: t) = linesRun step (step st x).1 t := by
  rw [linesRun, hx]
  simp

theorem linesRun_append {σ : Type} (step : σ → List Char → σ × Bool)
    (stopOf : List Char → Bool) (hs : ∀ st l, (step st l).2 = stopOf l) :
    ∀ (xs ys : List (List Char)) (st : σ),
      (∀ l ∈ (xs ++ ys).dropLast, stopOf l = false) →
      linesRun step st (xs ++ ys) = linesRun step (linesRun step st xs) ys := by
  intro xs
  induction xs with
  | nil => intro ys st _; rfl
  | cons x xs ih =>
    intro ys st h
    rcases hxy : xs ++ ys with _ | ⟨z, zs⟩
    · have hxs : xs = [] := by
        cases xs with
        | nil => rfl
        | cons _ _ => simp at hxy
      have hys : ys = [] := by rw [hxs] at hxy; simpa using hxy
      subst hxs
      subst hys
      rfl
    · have hx : stopOf x = false := by
        apply h
        rw [List.cons_append, hxy]
        simp
      have hs1 : (step st x).2 = false := by rw [hs st x, hx]
      rw [List.cons_append, linesRun_cons_of_stop_false step st x (xs ++ ys) hs1,
        linesRun_cons_of_stop_false step st x xs hs1]
      exact ih ys (step st x).1 (fun l hl => by
        apply h
        rw [List.cons_append, List.dropLast_cons_of_ne_nil (by rw [hxy]; simp)]
        exact List.mem_cons_of_mem _ hl)

theorem foldChunks_eq {σ : Type} (step : σ → List Char → σ × Bool)
    (stopOf : List Char → Bool) (hs : ∀ st l, (step st l).2 = stopOf l) :
    ∀ (chunks : List (List Char)) (st : σ) (buf : List Char),
      '\n' ∉ buf →
      (∀ l ∈ ((splitNl (buf ++ chunks.flatten)).1).dropLast, stopOf l = false) →
      chunks.foldl (chunkStep step) (st, buf)
        = (linesRun step st (splitNl (buf ++ chunks.flatten)).1,
           (splitNl (buf ++ chunks.flatten)).2) := by
  intro chunks
  induction chunks with
  | nil =>
    intro st buf hbuf _
    simp [List.flatten, splitNl_eq_of_no_nl buf hbuf, linesRun]
  | cons c cs ih =>
    intro st buf hbuf h
    have hassoc : buf ++ (c :: cs).flatten = (buf ++ c) ++ cs.flatten := by
      simp [List.flatten]
    rw [hassoc] at h ⊢
    rw [splitNl_append (buf ++ c) cs.flatten] at h ⊢
    have hfull : ∀ l ∈ ((splitNl (buf ++ c)).1
        ++ (splitNl ((splitNl (buf ++ c)).2 ++ cs.flatten)).1).dropLast,
        stopOf l = false := h
    have hq : ∀ l ∈ ((splitNl ((splitNl (buf ++ c)).2 ++ cs.flatten)).1).dropLast,
        stopOf l = false := by
      intro l hl
      apply hfull
      rcases hq1 : (splitNl ((splitNl (buf ++ c)).2 ++ cs.flatten)).1 with _ | ⟨w, ws⟩
      · rw [hq1] at hl
        simp at hl
      · rw [hq1] at hl
        rw [List.dropLast_append_of_ne_nil _ (List.cons_ne_nil w ws)]
        exact List.mem_append_right _ hl
    rw [List.foldl_cons]
    rw [show chunkStep step (st, buf) c
        = (linesRun step st (splitNl (buf ++ c)).1, (splitNl (buf ++ c)).2) from rfl]
    rw [ih (linesRun step st (splitNl (buf ++ c)).1) (splitNl (buf ++ c)).2
      (splitNl_snd_no_nl (buf ++ c)) hq]
    show (linesRun step (linesRun step st (splitNl (buf ++ c)).1)
            (splitNl ((splitNl (buf ++ c)).2 ++ cs.flatten)).1,
          (splitNl ((splitNl (buf ++ c)).2 ++ cs.flatten)).2)
        = (linesRun step st
            ((splitNl (buf ++ c)).1
              ++ (splitNl ((splitNl (buf ++ c)).2 ++ cs.flatten)).1),
           (splitNl ((splitNl (buf ++ c)).2 ++ cs.flatten)).2)
    rw [linesRun_append step stopOf hs (splitNl (buf ++ c)).1
      (splitNl ((splitNl (buf ++ c)).2 ++ cs.flatten)).1 st hfull]

theorem settleOk_emitted (st : GenSt) : (settleOk st).emitted = st.emitted := by
  rcases h : st.settled with _ | v | m <;> simp [settleOk, h]

theorem settleOk_full (st : GenSt) : (settleOk st).full = st.full := by
  rcases h : st.settled with _ | v | m <;> simp [settleOk, h]

theorem settleErr_emitted (st : GenSt) (msg : String) :
    (settleErr st msg).emitted = st.emitted := by
  rcases h : st.settled with _ | v | m <;> simp [settleErr, h]

theorem settleErr_full (st : GenSt) (msg : String) :
    (settleErr st msg).full = st.full := by
  rcases h : st.settled with _ | v | m <;> simp [settleErr, h]

theorem genLineStep_snd (parse : List Char → GenParse) (st : GenSt) (l : List Char) :
    (genLineStep parse st l).2 = genStopper parse l := by
  cases hb : jsBlank l with
  | true => simp [genLineStep, genStopper, hb]
  | false =>
    cases hp : parse l with
    | malformed => simp [genLineStep, genStopper, hb, hp]
    | obj resp done err =>
      cases done with
      | true => simp [genLineStep, genStopper, hb, hp]
      | false =>
        cases err with
        | none => simp [genLineStep, genStopper, hb, hp]
        | some m => simp [genLineStep, genStopper, hb, hp]

theorem genLineStep_fst (parse : List Char → GenParse) (st : GenSt) (l : List Char) :
    (genLineStep parse st l).1.emitted = st.emitted ++ (lineResp parse l).toList
      ∧ (genLineStep parse st l).1.full = st.full ++ ((lineResp parse l).getD "") := by
  cases hb : jsBlank l with
  | true => simp [genLineStep, lineResp, hb, String.append_empty]
  | false =>
    cases hp : parse l with
    | malformed => simp [genLineStep, lineResp, hb, hp, String.append_empty]
    | obj resp done err =>
      rcases resp with _ | s
      · cases done with
        | true =>
          simp [genLineStep, lineResp, respTruthy, hb, hp,
            settleOk_emitted, settleOk_full, String.append_empty]
        | false =>
          cases err with
          | none =>
            simp [genLineStep, lineResp, respTruthy, hb, hp, String.append_empty]
          | some m =>
            simp [genLineStep, lineResp, respTruthy, hb, hp,
              settleErr_emitted, settleErr_full, String.append_empty]
      · by_cases hs0 : s = ""
        · subst hs0
          cases done with
          | true =>
            simp [genLineStep, lineResp, respTruthy, hb, hp,
              settleOk_emitted, settleOk_full, String.append_empty]
          | false =>
            cases err with
            | none =>
              simp [genLineStep, lineResp, respTruthy, hb, hp, String.append_empty]
            | some m =>
              simp [genLineStep, lineResp, respTruthy, hb, hp,
                settleErr_emitted, settleErr_full, String.append_empty]
        · cases done with
          | true =>
            simp [genLineStep, lineResp, respTruthy, hb, hp, hs0,
              settleOk_emitted, settleOk_full]
          | false =>
            cases err with
            | none =>
              simp [genLineStep, lineResp, respTruthy, hb, hp, hs0]
            | some m =>
              simp [genLineStep, lineResp, respTruthy, hb, hp, hs0,
                settleErr_emitted, settleErr_full]

theorem wfResponses_single (parse : List Char → GenParse) (x : List Char) :
    wfResponses parse [x] = (lineResp parse x).toList := by
  rcases hlr : lineResp parse x with _ | s <;> simp [wfResponses, hlr]

theorem wfResponses_cons (parse : List Char → GenParse) (x : List Char)
    (t : List (List Char)) :
    wfResponses parse (x :: t) = (lineResp parse x).toList ++ wfResponses parse t := by
  rcases hlr : lineResp parse x with _ | s <;> simp [wfResponses, hlr]

theorem strConcat_toList (o : Option String) :
    strConcat o.toList = o.getD "" := by
  rcases o with _ | s <;> simp [strConcat, String.append_empty]

theorem strConcat_toList_append (o : Option String) (rest : List String) :
    strConcat (o.toList ++ rest) = (o.getD "") ++ strConcat rest := by
  rcases o with _ | s
  · simp [strConcat, String.empty_append]
  · simp [strConcat]

theorem linesRun_single (step : GenSt → List Char → GenSt × Bool) (st : GenSt)
    (x : List Char) :
    linesRun step st [x] = (step st x).1 := by
  rw [linesRun]
  split <;> rfl

theorem genLinesRun_spec (parse : List Char → GenParse) :
    ∀ (ls : List (List Char)) (st : GenSt),
      (∀ l ∈ ls.dropLast, genStopper parse l = false) →
      (linesRun (genLineStep parse) st ls).emitted = st.emitted ++ wfResponses parse ls
        ∧ (linesRun (genLineStep parse) st ls).full
            = st.full ++ strConcat (wfResponses parse ls) := by
  intro ls
  induction ls with
  | nil =>
    intro st _
    simp [linesRun, wfResponses, strConcat, String.append_empty]
  | cons x t ih =>
    intro st h
    cases t with
    | nil =>
      rw [linesRun_single]
      have hf := genLineStep_fst parse st x
      refine ⟨?_, ?_⟩
      · rw [hf.1, wfResponses_single]
      · rw [hf.2, wfResponses_single, strConcat_toList]
    | cons y ys =>
      have hx : genStopper parse x = false := by
        apply h
        rw [List.dropLast_cons_of_ne_nil (List.cons_ne_nil y ys)]
        exact List.mem_cons_self x _
      have hs1 : (genLineStep parse st x).2 = false := by
        rw [genLineStep_snd, hx]
      rw [linesRun_cons_of_stop_false _ _ _ _ hs1]
      have ih' := ih (genLineStep parse st x).1 (fun l hl => by
        apply h
        rw [List.dropLast_cons_of_ne_nil (List.cons_ne_nil y ys)]
        exact List.mem_cons_of_mem _ hl)
      have hf := genLineStep_fst parse st x
      refine ⟨?_, ?_⟩
      · rw [ih'.1, hf.1, wfResponses_cons parse x (y :: ys), List.append_assoc]
      · rw [ih'.2, hf.2, wfResponses_cons parse x (y :: ys),
          strConcat_toList_append (lineResp parse x) (wfResponses parse (y :: ys)),
          String.append_assoc]

theorem genLineStep_settled_pending (parse : List Char → GenParse) (st : GenSt)
    (l : List Char) (hst : st.settled = .pending)
    (hns : genStopper parse l = false) :
    (genLineStep parse st l).1.settled = .pending := by
  cases hb : jsBlank l with
  | true => simpa [genLineStep, hb] using hst
  | false =>
    cases hp : parse l with
    | malformed => simpa [genLineStep, hb, hp] using hst
    | obj resp done err =>
      have hde : done = false ∧ err.isSome = false := by
        simp [genStopper, hb, hp] at hns
        rcases hns with ⟨h1, h2⟩
        exact ⟨h1, by simp [h2]⟩
      rcases hde with ⟨hd, he⟩
      subst hd
      cases err with
      | some m => simp at he
      | none =>
        cases hresp : respTruthy resp with
        | true => simpa [genLineStep, hb, hp, hresp] using hst
        | false => simpa [genLineStep, hb, hp, hresp] using hst

theorem genLineStep_settled_done (parse : List Char → GenParse) (st : GenSt)
    (l : List Char) (hst : st.settled = .pending)
    (hne : genErrLine parse l = false) (hs : genStopper parse l = true) :
    (genLineStep parse st l).1.settled
      = .resolved (genLineStep parse st l).1.full := by
  cases hb : jsBlank l with
  | true => simp [genStopper, hb] at hs
  | false =>
    cases hp : parse l with
    | malformed => simp [genStopper, hb, hp] at hs
    | obj resp done err =>
      have he : err.isSome = false := by
        simp [genErrLine, hb, hp] at hne
        simp [hne]
      have hd : done = true := by
        simp [genStopper, hb, hp, he] at hs
        simpa using hs
      subst hd
      cases hresp : respTruthy resp with
      | true =>
        have h1 : (genLineStep parse st l).1
            = settleOk { st with full := st.full ++ resp.getD "",
                                 emitted := st.emitted ++ [resp.getD ""] } := by
          simp [genLineStep, hb, hp, hresp]
        rw [h1, settleOk_full]
        simp [settleOk, hst]
      | false =>
        have h1 : (genLineStep parse st l).1 = settleOk st := by
          simp [genLineStep, hb, hp, hresp]
        rw [h1, settleOk_full]
        simp [settleOk, hst]

theorem genLinesRun_settled (parse : List Char → GenParse) :
    ∀ (ls : List (List Char)) (st : GenSt),
      st.settled = .pending →
      (∀ l ∈ ls.dropLast, genStopper parse l = false) →
      (∀ l ∈ ls, genErrLine parse l = false) →
      (linesRun (genLineStep parse) st ls).settled = .pending
        ∨ (linesRun (genLineStep parse) st ls).settled
            = .resolved (linesRun (genLineStep parse) st ls).full := by
  intro ls
  induction ls with
  | nil =>
    intro st hst _ _
    exact Or.inl hst
  | cons x t ih =>
    intro st hst hstop herr
    cases hsx : genStopper parse x with
    | false =>
      have hs1 : (genLineStep parse st x).2 = false := by
        rw [genLineStep_snd, hsx]
      rw [linesRun_cons_of_stop_false _ _ _ _ hs1]
      refine ih (genLineStep parse st x).1
        (genLineStep_settled_pending parse st x hst hsx) ?_ ?_
      · intro l hl
        apply hstop
        cases t with
        | nil => simp at hl
        | cons a b =>
          rw [List.dropLast_cons_of_ne_nil (List.cons_ne_nil a b)]
          exact List.mem_cons_of_mem _ hl
      · intro l hl
        exact herr l (List.mem_cons_of_mem _ hl)
    | true =>
      cases t with
      | cons a b =>
        exfalso
        have hcontra := hstop x (by
          rw [List.dropLast_cons_of_ne_nil (List.cons_ne_nil a b)]
          exact List.mem_cons_self _ _)
        rw [hsx] at hcontra
        exact absurd hcontra (by simp)
      | nil =>
        right
        rw [linesRun_single]
        exact genLineStep_settled_done parse st x hst
          (herr x (List.mem_cons_self x _)) hsx

theorem settleOk_of_pending_or_resolved (st : GenSt)
    (h : st.settled = .pending ∨ st.settled = .resolved st.full) :
    (settleOk st).settled = .resolved st.full := by
  rcases h with h | h <;> simp [settleOk, h]

theorem pullSettleOk_events (st : PullSt) : (pullSettleOk st).events = st.events := by
  rcases h : st.settled with _ | v | m <;> simp [pullSettleOk, h]

theorem pullSettleErr_events (st : PullSt) (msg : String) :
    (pullSettleErr st msg).events = st.events := by
  rcases h : st.settled with _ | v | m <;> simp [pullSettleErr, h]

theorem pullLineStep_snd (parse : List Char → PullParse) (st : PullSt) (l : List Char) :
    (pullLineStep parse st l).2 = pullStopper parse l := by
  cases hb : jsBlank l with
  | true => simp [pullLineStep, pullStopper, hb]
  | false =>
    cases hp : parse l with
    | malformed => simp [pullLineStep, pullStopper, hb, hp]
    | obj status completed total err =>
      by_cases hsc : status = some "success"
      · simp [pullLineStep, pullStopper, hb, hp, hsc]
      · cases he : errTruthy err with
        | true => simp [pullLineStep, pullStopper, hb, hp, hsc, he]
        | false => simp [pullLineStep, pullStopper, hb, hp, hsc, he]

theorem pullLineStep_events (parse : List Char → PullParse) (st : PullSt)
    (l : List Char) :
    (pullLineStep parse st l).1.events = st.events ++ (pullEventOf parse l).toList := by
  cases hb : jsBlank l with
  | true => simp [pullLineStep, pullEventOf, hb]
  | false =>
    cases hp : parse l with
    | malformed => simp [pullLineStep, pullEventOf, hb, hp]
    | obj status completed total err =>
      by_cases hsc : status = some "success"
      · simp [pullLineStep, pullEventOf, hb, hp, hsc, pullSettleOk_events]
      · cases he : errTruthy err with
        | true =>
          simp [pullLineStep, pullEventOf, hb, hp, hsc, he, pullSettleErr_events]
        | false => simp [pullLineStep, pullEventOf, hb, hp, hsc, he]

theorem pullEvents_single (parse : List Char → PullParse) (x : List Char) :
    pullEvents parse [x] = (pullEventOf parse x).toList := by
  rcases hlr : pullEventOf parse x with _ | e <;> simp [pullEvents, hlr]

theorem pullEvents_cons (parse : List Char → PullParse) (x : List Char)
    (t : List (List Char)) :
    pullEvents parse (x :: t) = (pullEventOf parse x).toList ++ pullEvents parse t := by
  rcases hlr : pullEventOf parse x with _ | e <;> simp [pullEvents, hlr]

theorem pullLinesRun_single (step : PullSt → List Char → PullSt × Bool) (st : PullSt)
    (x : List Char) :
    linesRun step st [x] = (step st x).1 := by
  rw [linesRun]
  split <;> rfl

theorem pullLinesRun_events (parse : List Char → PullParse) :
    ∀ (ls : List (List Char)) (st : PullSt),
      (∀ l ∈ ls.dropLast, pullStopper parse l = false) →
      (linesRun (pullLineStep parse) st ls).events = st.events ++ pullEvents parse ls := by
  intro ls
  induction ls with
  | nil =>
    intro st _
    simp [linesRun, pullEvents]
  | cons x t ih =>
    intro st h
    cases t with
    | nil =>
      rw [pullLinesRun_single]
      rw [pullLineStep_events, pullEvents_single]
    | cons y ys =>
      have hx : pullStopper parse x = false := by
        apply h
        rw [List.dropLast_cons_of_ne_nil (List.cons_ne_nil y ys)]
        exact List.mem_cons_self x _
      have hs1 : (pullLineStep parse st x).2 = false := by
        rw [pullLineStep_snd, hx]
      rw [linesRun_cons_of_stop_false _ _ _ _ hs1]
      have ih' := ih (pullLineStep parse st x).1 (fun l hl => by
        apply h
        rw [List.dropLast_cons_of_ne_nil (List.cons_ne_nil y ys)]
        exact List.mem_cons_of_mem _ hl)
      rw [ih', pullLineStep_events, pullEvents_cons parse x (y :: ys),
        List.append_assoc]

theorem pullLineStep_settled_pending (parse : List Char → PullParse) (st : PullSt)
    (l : List Char) (hst : st.settled = .pending)
    (hns : pullStopper parse l = false) :
    (pullLineStep parse st l).1.settled = .pending := by
  cases hb : jsBlank l with
  | true => simpa [pullLineStep, hb] using hst
  | false =>
    cases hp : parse l with
    | malformed => simpa [pullLineStep, hb, hp] using hst
    | obj status completed total err =>
      have hse : ¬ status = some "success" ∧ errTruthy err = false := by
        simp [pullStopper, hb, hp] at hns
        exact hns
      simpa [pullLineStep, hb, hp, hse.1, hse.2] using hst

theorem pullLinesRun_settled (parse : List Char → PullParse) :
    ∀ (ls : List (List Char)) (st : PullSt),
      st.settled = .pending →
      (∀ l ∈ ls, pullStopper parse l = false) →
      (linesRun (pullLineStep parse) st ls).settled = .pending := by
  intro ls
  induction ls with
  | nil =>
    intro st hst _
    exact hst
  | cons x t ih =>
    intro st hst h
    have hx : pullStopper parse x = false := h x (List.mem_cons_self x t)
    have hs1 : (pullLineStep parse st x).2 = false := by
      rw [pullLineStep_snd, hx]
    rw [linesRun_cons_of_stop_false _ _ _ _ hs1]
    exact ih (pullLineStep parse st x).1
      (pullLineStep_settled_pending parse st x hst hx)
      (fun l hl => h l (List.mem_cons_of_mem _ hl))

theorem pullEnd_events (parse : List Char → PullParse) (st : PullSt)
    (buffer : List Char) : (pullEnd parse st buffer).events = st.events := by
  cases hb : jsBlank buffer with
  | true => simp [pullEnd, hb, pullSettleOk_events]
  | false =>
    cases hp : parse buffer with
    | malformed => simp [pullEnd, hb, hp, pullSettleOk_events]
    | obj status completed total err =>
      by_cases hsc : status = some "success"
      · simp [pullEnd, hb, hp, hsc, pullSettleOk_events]
      · cases he : errTruthy err with
        | true => simp [pullEnd, hb, hp, hsc, he, pullSettleErr_events]
        | false => simp [pullEnd, hb, hp, hsc, he, pullSettleOk_events]

theorem pullEnd_resolves (parse : List Char → PullParse) (st : PullSt)
    (buffer : List Char) (hst : st.settled = .pending)
    (hb : pullStopper parse buffer = false) :
    (pullEnd parse st buffer).settled = .resolved true := by
  cases hbl : jsBlank buffer with
  | true => simp [pullEnd, hbl, pullSettleOk, hst]
  | false =>
    cases hp : parse buffer with
    | malformed => simp [pullEnd, hbl, hp, pullSettleOk, hst]
    | obj status completed total err =>
      have hse : ¬ status = some "success" ∧ errTruthy err = false := by
        simp [pullStopper, hbl, hp] at hb
        exact hb
      simp [pullEnd, hbl, hp, hse.1, hse.2, pullSettleOk, hst]

/-! ## Claim theorems: the streaming client -/

/-- C7: for any newline-delimited JSON stream consumed by the two streaming
clients — as long as a terminal line (done/error for `generateStream`,
success/error for `pullModel`) occurs, if at all, only as the last complete
line, and (for `generateStream`) no error line occurs — every complete
well-formed line is parsed and dispatched to the chunk callback, malformed
and blank lines are skipped without aborting the stream, the trailing
partial segment is held in the buffer and never processed as a line, and
the final accumulated result is exactly the concatenation of the dispatched
well-formed chunks. -/
theorem streamClient_wellformed (parse : List Char → GenParse)
    (chunks : List (List Char)) (parseP : List Char → PullParse)
    (chunksP : List (List Char))
    (hstop : ∀ l ∈ ((splitNl chunks.flatten).1).dropLast, genStopper parse l = false)
    (herr : ∀ l ∈ (splitNl chunks.flatten).1, genErrLine parse l = false)
    (hstopP : ∀ l ∈ ((splitNl chunksP.flatten).1).dropLast,
      pullStopper parseP l = false) :
    ((generateStream parse chunks).1.emitted
        = wfResponses parse (splitNl chunks.flatten).1
      ∧ (generateStream parse chunks).1.settled
          = .resolved (strConcat (wfResponses parse (splitNl chunks.flatten).1))
      ∧ (generateStream parse chunks).2 = (splitNl chunks.flatten).2)
    ∧ ((pullModel parseP chunksP).1.events
        = pullEvents parseP (splitNl chunksP.flatten).1
      ∧ (pullModel parseP chunksP).2 = (splitNl chunksP.flatten).2) := by
  have heq : runChunks (genLineStep parse) ⟨"", [], .pending⟩ chunks
      = (linesRun (genLineStep parse) ⟨"", [], .pending⟩ (splitNl chunks.flatten).1,
         (splitNl chunks.flatten).2) :=
    foldChunks_eq (genLineStep parse) (genStopper parse) (genLineStep_snd parse)
      chunks ⟨"", [], .pending⟩ [] (by simp) hstop
  have h1 : (runChunks (genLineStep parse) ⟨"", [], .pending⟩ chunks).1
      = linesRun (genLineStep parse) ⟨"", [], .pending⟩ (splitNl chunks.flatten).1 := by
    rw [heq]
  have h2 : (runChunks (genLineStep parse) ⟨"", [], .pending⟩ chunks).2
      = (splitNl chunks.flatten).2 := by
    rw [heq]
  have hspec := genLinesRun_spec parse (splitNl chunks.flatten).1
    ⟨"", [], .pending⟩ hstop
  have heqP : runChunks (pullLineStep parseP) ⟨[], .pending⟩ chunksP
      = (linesRun (pullLineStep parseP) ⟨[], .pending⟩ (splitNl chunksP.flatten).1,
         (splitNl chunksP.flatten).2) :=
    foldChunks_eq (pullLineStep parseP) (pullStopper parseP) (pullLineStep_snd parseP)
      chunksP ⟨[], .pending⟩ [] (by simp) hstopP
  have h1P : (runChunks (pullLineStep parseP) ⟨[], .pending⟩ chunksP).1
      = linesRun (pullLineStep parseP) ⟨[], .pending⟩ (splitNl chunksP.flatten).1 := by
    rw [heqP]
  have h2P : (runChunks (pullLineStep parseP) ⟨[], .pending⟩ chunksP).2
      = (splitNl chunksP.flatten).2 := by
    rw [heqP]
  refine ⟨⟨?_, ?_, ?_⟩, ?_, ?_⟩
  · show (settleOk (runChunks (genLineStep parse) ⟨"", [], .pending⟩ chunks).1).emitted
      = _
    rw [h1, settleOk_emitted, hspec.1]
    simp
  · show (settleOk (runChunks (genLineStep parse) ⟨"", [], .pending⟩ chunks).1).settled
      = _
    rw [h1, settleOk_of_pending_or_resolved _
      (genLinesRun_settled parse (splitNl chunks.flatten).1 ⟨"", [], .pending⟩ rfl
        hstop herr),
      hspec.2]
    rw [show ((⟨"", [], .pending⟩ : GenSt).full
        ++ strConcat (wfResponses parse (splitNl chunks.flatten).1))
      = strConcat (wfResponses parse (splitNl chunks.flatten).1)
      from String.empty_append _]
  · show (runChunks (genLineStep parse) ⟨"", [], .pending⟩ chunks).2 = _
    rw [h2]
  · show (pullEnd parseP (runChunks (pullLineStep parseP) ⟨[], .pending⟩ chunksP).1
        (runChunks (pullLineStep parseP) ⟨[], .pending⟩ chunksP).2).events = _
    rw [pullEnd_events, h1P,
      pullLinesRun_events parseP (splitNl chunksP.flatten).1 ⟨[], .pending⟩ hstopP]
    simp
  · show (runChunks (pullLineStep parseP) ⟨[], .pending⟩ chunksP).2 = _
    rw [h2P]

/-- C10: when the model-pull stream closes without any line — including the
final buffered remainder — reporting a `success` status or an error, the
operation still resolves `true`: the ambiguous stream end is treated as
success. -/
theorem pullModel_ambiguous_end_success (parse : List Char → PullParse)
    (chunks : List (List Char))
    (hlines : ∀ l ∈ (splitNl chunks.flatten).1, pullStopper parse l = false)
    (hbuf : pullStopper parse (splitNl chunks.flatten).2 = false) :
    (pullModel parse chunks).1.settled = .resolved true := by
  have heq : runChunks (pullLineStep parse) ⟨[], .pending⟩ chunks
      = (linesRun (pullLineStep parse) ⟨[], .pending⟩ (splitNl chunks.flatten).1,
         (splitNl chunks.flatten).2) :=
    foldChunks_eq (pullLineStep parse) (pullStopper parse) (pullLineStep_snd parse)
      chunks ⟨[], .pending⟩ [] (by simp)
      (fun l hl => hlines l (List.dropLast_subset _ hl))
  have h1 : (runChunks (pullLineStep parse) ⟨[], .pending⟩ chunks).1
      = linesRun (pullLineStep parse) ⟨[], .pending⟩ (splitNl chunks.flatten).1 := by
    rw [heq]
  have h2 : (runChunks (pullLineStep parse) ⟨[], .pending⟩ chunks).2
      = (splitNl chunks.flatten).2 := by
    rw [heq]
  show (pullEnd parse (runChunks (pullLineStep parse) ⟨[], .pending⟩ chunks).1
      (runChunks (pullLineStep parse) ⟨[], .pending⟩ chunks).2).settled = _
  rw [h1, h2]
  exact pullEnd_resolves parse _ _
    (pullLinesRun_settled parse (splitNl chunks.flatten).1 ⟨[], .pending⟩ rfl hlines)
    hbuf

theorem streamClient_wellformed_witness :
    ((∀ l ∈ ((splitNl testGenChunks.flatten).1).dropLast,
        genStopper testGenParse l = false)
      ∧ (∀ l ∈ (splitNl testGenChunks.flatten).1, genErrLine testGenParse l = false)
      ∧ (∀ l ∈ ((splitNl testPullChunks.flatten).1).dropLast,
          pullStopper testPullParse l = false)) ∧
      (((generateStream testGenParse testGenChunks).1.emitted
          = wfResponses testGenParse (splitNl testGenChunks.flatten).1
        ∧ (generateStream testGenParse testGenChunks).1.settled
            = .resolved
              (strConcat (wfResponses testGenParse (splitNl testGenChunks.flatten).1))
        ∧ (generateStream testGenParse testGenChunks).2
            = (splitNl testGenChunks.flatten).2)
      ∧ ((pullModel testPullParse testPullChunks).1.events
          = pullEvents testPullParse (splitNl testPullChunks.flatten).1
        ∧ (pullModel testPullParse testPullChunks).2
            = (splitNl testPullChunks.flatten).2)) :=
  ⟨⟨by decide, by decide, by decide⟩,
    streamClient_wellformed testGenParse testGenChunks testPullParse testPullChunks
      (by decide) (by decide) (by decide)⟩

theorem pullModel_ambiguous_end_success_witness :
    ((∀ l ∈ (splitNl testPullChunks.flatten).1, pullStopper testPullParse l = false)
      ∧ pullStopper testPullParse (splitNl testPullChunks.flatten).2 = false) ∧
      (pullModel testPullParse testPullChunks).1.settled = .resolved true :=
  ⟨⟨by decide, by decide⟩,
    pullModel_ambiguous_end_success testPullParse testPullChunks (by decide) (by decide)⟩

end Companion
